import Mathlib

/-!
Verification development for the lzma-fpga driver core: the device control
protocol, transfer-chunking engine, metrics derivation, error taxonomy and
CRC32 utility are shallowly embedded as executable Lean definitions, and the
spec's claims about them are settled as theorems.

Modelling conventions:
* Machine integers (`u32`, `u64`) are modelled as `Nat`.  None of the
  operations performed on them (xor, right shift, bit tests, bounded sums)
  can overflow their Rust width for in-range inputs, so no `% 2^w`
  reduction is needed where it is not written.
* `f32` arithmetic in the metrics derivation is modelled exactly over `ℚ`
  (the spec states the ratio formulas as exact mathematics; rounding of the
  binary float format is not modelled).
* The RegisterPort collaborator (the `read_register` / `write_register` /
  `read_chunk` / `write_chunk` primitives, placeholders in the source) is
  modelled as an ideal port: register reads are answered by oracle
  functions, and every operation performed is recorded in an explicit
  trace of `Op` values, so that claims about which accesses occur can be
  stated about the trace.  Successive reads of the status register are
  answered by a sequence `statusSeq : Nat → Nat` (value of the k-th status
  read), matching the spec's "sequence of status-register values produced
  by the register port".
* `std::thread::sleep` delays are timing-only and have no observable
  effect in the embedding.
-/

namespace LzmaFpga

/-- Error taxonomy of the driver, from `src/error.rs` (`Lzma2Error`).
Variants carrying a `String` mirror the Rust variants with a message
payload. -/
inductive Lzma2Error where
  | DeviceInitError (msg : String)
  | TransferError (msg : String)
  | ProcessingError (msg : String)
  | DeviceAccessError
  | TimeoutError
  | CrcError
  | InputValidationError (msg : String)
deriving DecidableEq

/-- Recoverability classification, from `ErrorExt::is_recoverable` in
`src/error.rs`. -/
def is_recoverable : Lzma2Error → Bool
  | Lzma2Error.TimeoutError => true
  | Lzma2Error.TransferError _ => true
  | Lzma2Error.DeviceInitError _ => false
  | Lzma2Error.ProcessingError _ => false
  | Lzma2Error.DeviceAccessError => false
  | Lzma2Error.CrcError => false
  | Lzma2Error.InputValidationError _ => false

/-- Context extraction, from `ErrorExt::context` in `src/error.rs`. -/
def context : Lzma2Error → Option String
  | Lzma2Error.DeviceInitError ctx => some ctx
  | Lzma2Error.TransferError ctx => some ctx
  | Lzma2Error.ProcessingError ctx => some ctx
  | Lzma2Error.InputValidationError ctx => some ctx
  | _ => none

/-- CRC32 calculator state, from `src/utils/mod.rs` (`Crc32`): a
configurable polynomial and initial value (both `u32`). -/
structure Crc32 where
  polynomial : Nat
  initial_value : Nat

/-- One iteration of the inner bit loop of `Crc32::calculate`:
`crc = if crc & 1 == 1 { (crc >> 1) ^ polynomial } else { crc >> 1 }`. -/
def crcRound (poly crc : Nat) : Nat :=
  if crc % 2 = 1 then (crc / 2) ^^^ poly else crc / 2

/-- The inner `for _ in 0..8` loop of `Crc32::calculate`, iterated `n`
times (the source uses `n = 8`). -/
def crcRounds (poly : Nat) : Nat → Nat → Nat
  | 0, crc => crc
  | n + 1, crc => crcRounds poly n (crcRound poly crc)

/-- `Crc32::calculate` from `src/utils/mod.rs`: fold over the data bytes,
xoring each byte into the running crc and running eight bit rounds, then
complement (`!crc`, i.e. xor with `0xFFFFFFFF` on `u32`). -/
def Crc32.calculate (c : Crc32) (data : List Nat) : Nat :=
  (data.foldl (fun crc byte => crcRounds c.polynomial 8 (crc ^^^ byte))
    c.initial_value) ^^^ 0xFFFFFFFF

/-- `Crc32::verify` from `src/utils/mod.rs`: recompute and compare. -/
def Crc32.verify (c : Crc32) (data : List Nat) (reference_crc : Nat) : Bool :=
  c.calculate data == reference_crc

/-- Cache performance metrics, from `src/device/metrics.rs`
(`CacheMetrics`).  `hits` and `misses` are `u64` counters (modelled as
`Nat`); the derived `hit_ratio` is an `f32`, modelled exactly over `ℚ`. -/
structure CacheMetrics where
  hits : Nat
  misses : Nat
  hit_ratio : ℚ
deriving DecidableEq

/-- `Default` instance of `CacheMetrics` (all fields zero). -/
def CacheMetrics.default : CacheMetrics :=
  { hits := 0, misses := 0, hit_ratio := 0 }

/-- `CacheMetrics::calculate_hit_ratio` from `src/device/metrics.rs`:
`hit_ratio = hits / (hits + misses)` when the total is positive, else
`0.0`.  The Rust method mutates in place; the embedding returns the
updated record. -/
def calculate_hit_ratio (m : CacheMetrics) : CacheMetrics :=
  let total := m.hits + m.misses
  { m with hit_ratio := if total > 0 then (m.hits : ℚ) / (total : ℚ) else 0 }

/-- Performance metrics, from `src/device/metrics.rs`
(`PerformanceMetrics`).  The `u64` counters are modelled as `Nat`, the
`f32` ratio exactly over `ℚ`. -/
structure PerformanceMetrics where
  total_bytes_processed : Nat
  compressed_bytes : Nat
  compression_ratio : ℚ
  cycles : Nat
  cache_metrics : CacheMetrics
  literal_count : Nat
  match_hits : Nat
deriving DecidableEq

/-- `Default` instance of `PerformanceMetrics` (all fields zero). -/
def PerformanceMetrics.default : PerformanceMetrics :=
  { total_bytes_processed := 0, compressed_bytes := 0, compression_ratio := 0,
    cycles := 0, cache_metrics := CacheMetrics.default,
    literal_count := 0, match_hits := 0 }

/-- `PerformanceMetrics::calculate_compression_ratio` from
`src/device/metrics.rs`: `compression_ratio = compressed_bytes /
total_bytes_processed` when the denominator is positive, else `1.0`. -/
def calculate_compression_ratio (m : PerformanceMetrics) : PerformanceMetrics :=
  { m with compression_ratio :=
      if m.total_bytes_processed > 0 then
        (m.compressed_bytes : ℚ) / (m.total_bytes_processed : ℚ)
      else 1 }

/-- A single RegisterPort access, recorded in the trace of an operation:
register read / register write (`read_register` / `write_register`) and
byte-range read / write (`read_chunk` / `write_chunk`). -/
inductive Op where
  | readReg (off : Nat)
  | writeReg (off : Nat) (val : Nat)
  | readChunk (off : Nat) (len : Nat)
  | writeChunk (off : Nat) (data : List Nat)
deriving DecidableEq

/-- Register map of the device, from `src/device/pcie.rs` (`RegisterMap`):
fixed offsets for control, status, input data, output data and the
performance counters. -/
structure RegisterMap where
  control : Nat
  status : Nat
  input_data : Nat
  output_data : Nat
  performance_counters : Nat
deriving DecidableEq

/-- The register map installed by `PcieDevice::new` in
`src/device/pcie.rs`. -/
def defaultRegisters : RegisterMap :=
  { control := 0x00, status := 0x04, input_data := 0x08,
    output_data := 0x0C, performance_counters := 0x20 }

/-- Transfer strategies, from `src/transfer/mod.rs` (`TransferStrategy`). -/
inductive TransferStrategy where
  | Mmio
  | Dma
  | Streaming
deriving DecidableEq

/-- `TransferStrategy::optimal_chunk_size` from `src/transfer/mod.rs`. -/
def optimal_chunk_size : TransferStrategy → Nat
  | TransferStrategy.Mmio => 256
  | TransferStrategy.Dma => 4096
  | TransferStrategy.Streaming => 1024

/-- Rust's `slice::chunks (k + 1)`: split a list into consecutive chunks
of `k + 1` elements, the last chunk possibly shorter.  The chunk size is
written `k + 1` so that it is positive by construction (Rust's `chunks`
panics on size 0); `chunksOf 255` models `chunks(256)` and `chunksOf 31`
models `chunks(32)`. -/
def chunksOf (k : Nat) : List Nat → List (List Nat)
  | [] => []
  | x :: xs => ((x :: xs).take (k + 1)) :: chunksOf k ((x :: xs).drop (k + 1))
termination_by l => l.length
decreasing_by simp [List.length_drop]; omega

/-- Zero padding of a final short chunk in `transfer_compressed_data`:
`let mut padded_chunk = [0u8; 32]; padded_chunk[..chunk.len()]
.copy_from_slice(chunk)`. -/
def padChunk32 (chunk : List Nat) : List Nat :=
  chunk ++ List.replicate (32 - chunk.length) 0

/-- `PcieDevice::reset` from `src/device/pcie_trait_impl.rs`: write the
control register with only bit 31 set (`1 << 31`), sleep 10 µs (timing
only, not modelled), then write it to zero. -/
def reset (controlOff : Nat) : Except Lzma2Error Unit × List Op :=
  (Except.ok (), [Op.writeReg controlOff (1 <<< 31), Op.writeReg controlOff 0])

/-- `PcieDevice::transfer_input_data` from
`src/device/pcie_trait_impl.rs`: under the Mmio strategy, write the input
in 256-byte chunks at `input_data + i * 256`; under any other strategy,
fail immediately with a transfer error and no port access. -/
def transfer_input_data (inputBase : Nat) (strategy : TransferStrategy)
    (input : List Nat) : Except Lzma2Error Unit × List Op :=
  match strategy with
  | TransferStrategy.Mmio =>
      (Except.ok (), (chunksOf 255 input).enum.map
        (fun p => Op.writeChunk (inputBase + p.1 * 256) p.2))
  | _ => (Except.error (Lzma2Error.TransferError "Unsupported transfer strategy"), [])

/-- `PcieDevice::transfer_compressed_data` from
`src/device/pcie_trait_impl.rs`: under the Mmio strategy, write the input
in 32-byte chunks at `input_data + i * 32`, zero-padding a short final
chunk to 32 bytes; under any other strategy, fail immediately with a
transfer error and no port access. -/
def transfer_compressed_data (inputBase : Nat) (strategy : TransferStrategy)
    (input : List Nat) : Except Lzma2Error Unit × List Op :=
  match strategy with
  | TransferStrategy.Mmio =>
      (Except.ok (), (chunksOf 31 input).enum.map
        (fun p => Op.writeChunk (inputBase + p.1 * 32) (padChunk32 p.2)))
  | _ => (Except.error (Lzma2Error.TransferError "Unsupported transfer strategy"), [])

/-- `PcieDevice::start_compression`: write the control register with the
start bit (bit 0). -/
def start_compression (controlOff : Nat) : Except Lzma2Error Unit × List Op :=
  (Except.ok (), [Op.writeReg controlOff 1])

/-- `PcieDevice::start_decompression`: write the control register with
the start bit and the decompress-mode bit, `(1 << 0) | (1 << 16)`. -/
def start_decompression (controlOff : Nat) : Except Lzma2Error Unit × List Op :=
  (Except.ok (), [Op.writeReg controlOff ((1 <<< 0) ||| (1 <<< 16))])

/-- `MAX_RETRIES` from `PcieDevice::wait_for_completion`. -/
def MAX_RETRIES : Nat := 1000

/-- Either stopping bit of a polled status word: bit 0 (completed) or
bit 16 (error). -/
def stopBit (status : Nat) : Bool :=
  status.testBit 0 || status.testBit 16

/-- Polling loop body of `PcieDevice::wait_for_completion`, recursing on
the remaining retries (`fuel`) and carrying the number `k` of status
reads already performed, so that the k-th status read is answered by
`statusSeq k`.  On each read: bit 0 set returns success; otherwise bit 16
set reads the error-code register at `statusOff + 4` and returns a
processing error carrying that code; otherwise sleep 10 µs (timing only)
and poll again.  Exhausted fuel is a timeout. -/
def waitAux (statusOff : Nat) (statusSeq : Nat → Nat) (errCode : Nat) :
    Nat → Nat → Except Lzma2Error Unit × List Op
  | 0, _ => (Except.error Lzma2Error.TimeoutError, [])
  | fuel + 1, k =>
      let status := statusSeq k
      if status.testBit 0 then
        (Except.ok (), [Op.readReg statusOff])
      else if status.testBit 16 then
        (Except.error (Lzma2Error.ProcessingError
            ("Processing error: Error code " ++ toString errCode)),
         [Op.readReg statusOff, Op.readReg (statusOff + 4)])
      else
        let r := waitAux statusOff statusSeq errCode fuel (k + 1)
        (r.1, Op.readReg statusOff :: r.2)

/-- `PcieDevice::wait_for_completion` from
`src/device/pcie_trait_impl.rs`: poll the status register up to
`MAX_RETRIES = 1000` times. -/
def wait_for_completion (statusOff : Nat) (statusSeq : Nat → Nat)
    (errCode : Nat) : Except Lzma2Error Unit × List Op :=
  waitAux statusOff statusSeq errCode MAX_RETRIES 0

/-- Number of status-register reads in a trace. -/
def statusReadCount (off : Nat) (ops : List Op) : Nat :=
  (ops.filter (fun o => match o with
    | Op.readReg o2 => o2 == off
    | _ => false)).length

/-- `PcieDevice::read_output_data` from `src/device/pcie_trait_impl.rs`:
read `32 * 1024 / 256 = 128` chunks of 256 bytes at
`output_data + i * 256` and concatenate them.  `read_chunk` into a
256-byte buffer is answered by the memory oracle `mem`, byte `j` of the
chunk at offset `off` being `mem (off + j)`. -/
def read_output_data (outputBase : Nat) (mem : Nat → Nat) :
    List Nat × List Op :=
  ((List.range (32 * 1024 / 256)).flatMap
     (fun i => (List.range 256).map (fun j => mem (outputBase + i * 256 + j))),
   (List.range (32 * 1024 / 256)).map
     (fun i => Op.readChunk (outputBase + i * 256) 256))

/-- `HardwareCompressionDevice::compress` for `PcieDevice`, from
`src/device/pcie_trait_impl.rs`: validate the input size (exactly
32 KiB), then reset, transfer the input, start compression, wait for
completion and read the output back, threading the trace of port
accesses.  Register writes always succeed on the ideal port, so the only
failure points are validation, the transfer strategy and the poll
loop. -/
def compress (regs : RegisterMap) (strategy : TransferStrategy)
    (statusSeq : Nat → Nat) (errCode : Nat) (mem : Nat → Nat)
    (input : List Nat) : Except Lzma2Error (List Nat) × List Op :=
  if input.length ≠ 32 * 1024 then
    (Except.error (Lzma2Error.InputValidationError
        ("Input size must be 32KB. Current size: " ++ toString input.length)),
     [])
  else
    let r := reset regs.control
    let t := transfer_input_data regs.input_data strategy input
    match t.1 with
    | Except.error e => (Except.error e, r.2 ++ t.2)
    | Except.ok _ =>
        let s := start_compression regs.control
        let w := wait_for_completion regs.status statusSeq errCode
        match w.1 with
        | Except.error e => (Except.error e, r.2 ++ t.2 ++ s.2 ++ w.2)
        | Except.ok _ =>
            let o := read_output_data regs.output_data mem
            (Except.ok o.1, r.2 ++ t.2 ++ s.2 ++ w.2 ++ o.2)

/-- `HardwareCompressionDevice::decompress` for `PcieDevice`, from
`src/device/pcie_trait_impl.rs`: validate that the input is non-empty,
then reset, transfer the compressed input, start decompression, wait for
completion and read the output back. -/
def decompress (regs : RegisterMap) (strategy : TransferStrategy)
    (statusSeq : Nat → Nat) (errCode : Nat) (mem : Nat → Nat)
    (input : List Nat) : Except Lzma2Error (List Nat) × List Op :=
  if input.isEmpty then
    (Except.error (Lzma2Error.InputValidationError "Compressed data is empty"),
     [])
  else
    let r := reset regs.control
    let t := transfer_compressed_data regs.input_data strategy input
    match t.1 with
    | Except.error e => (Except.error e, r.2 ++ t.2)
    | Except.ok _ =>
        let s := start_decompression regs.control
        let w := wait_for_completion regs.status statusSeq errCode
        match w.1 with
        | Except.error e => (Except.error e, r.2 ++ t.2 ++ s.2 ++ w.2)
        | Except.ok _ =>
            let o := read_output_data regs.output_data mem
            (Except.ok o.1, r.2 ++ t.2 ++ s.2 ++ w.2 ++ o.2)

/-- `HardwareCompressionDevice::get_performance_metrics` for
`PcieDevice`, from `src/device/pcie_trait_impl.rs`: start from the
default metrics record, fill the five hardware counters read at
`performance_counters + 0, +4, +8, +12, +16` (answered by the register
oracle `regVal`), then derive the two ratios. -/
def get_performance_metrics (perfBase : Nat) (regVal : Nat → Nat) :
    PerformanceMetrics × List Op :=
  let m := { PerformanceMetrics.default with
    total_bytes_processed := regVal perfBase,
    compressed_bytes := regVal (perfBase + 4),
    cycles := regVal (perfBase + 8),
    cache_metrics := { CacheMetrics.default with
      hits := regVal (perfBase + 12),
      misses := regVal (perfBase + 16) } }
  let m2 := calculate_compression_ratio m
  let m3 := { m2 with cache_metrics := calculate_hit_ratio m2.cache_metrics }
  (m3,
   [Op.readReg perfBase, Op.readReg (perfBase + 4), Op.readReg (perfBase + 8),
    Op.readReg (perfBase + 12), Op.readReg (perfBase + 16)])

/-- Xoring 1 into a natural number always changes it (bit 0 flips). -/
theorem xor_one_ne (x : Nat) : x ^^^ 1 ≠ x := by
  intro h
  have h1 : (x ^^^ 1) ^^^ x = 0 := by rw [h, Nat.xor_self]
  have h2 : (x ^^^ 1) ^^^ x = 1 := by
    rw [Nat.xor_comm x 1, Nat.xor_assoc, Nat.xor_self, Nat.xor_zero]
  rw [h1] at h2
  exact absurd h2.symm one_ne_zero

/-- If the first `k` polled status words have neither stopping bit and
the `k`-th (0-based) has bit 0 set, the polling loop succeeds with a
trace of exactly `k + 1` status reads. -/
theorem waitAux_success (statusOff : Nat) (statusSeq : Nat → Nat)
    (errCode : Nat) :
    ∀ k fuel start, k < fuel →
      (∀ j, j < k → stopBit (statusSeq (start + j)) = false) →
      (statusSeq (start + k)).testBit 0 = true →
      waitAux statusOff statusSeq errCode fuel start
        = (Except.ok (), List.replicate (k + 1) (Op.readReg statusOff)) := by
  intro k
  induction k with
  | zero =>
      intro fuel start hk _ hbit
      match fuel, hk with
      | fuel + 1, _ =>
        rw [Nat.add_zero] at hbit
        simp [waitAux, hbit]
  | succ k ih =>
      intro fuel start hk hpre hbit
      match fuel, hk with
      | fuel + 1, hk =>
        have h0 := hpre 0 (Nat.succ_pos k)
        rw [Nat.add_zero] at h0
        rw [stopBit, Bool.or_eq_false_iff] at h0
        have hrec := ih fuel (start + 1) (Nat.lt_of_succ_lt_succ hk)
          (fun j hj => by
            have h := hpre (j + 1) (Nat.succ_lt_succ hj)
            rwa [show start + (j + 1) = start + 1 + j by omega] at h)
          (by rwa [show start + 1 + k = start + (k + 1) by omega])
        simp [waitAux, h0.1, h0.2, hrec, List.replicate_succ]

/-- If the first `k` polled status words have neither stopping bit and
the `k`-th has bit 16 set but not bit 0, the polling loop reads the
error-code register at `statusOff + 4` after its `k + 1` status reads and
fails with a processing error carrying the code. -/
theorem waitAux_error (statusOff : Nat) (statusSeq : Nat → Nat)
    (errCode : Nat) :
    ∀ k fuel start, k < fuel →
      (∀ j, j < k → stopBit (statusSeq (start + j)) = false) →
      (statusSeq (start + k)).testBit 0 = false →
      (statusSeq (start + k)).testBit 16 = true →
      waitAux statusOff statusSeq errCode fuel start
        = (Except.error (Lzma2Error.ProcessingError
            ("Processing error: Error code " ++ toString errCode)),
           List.replicate (k + 1) (Op.readReg statusOff)
             ++ [Op.readReg (statusOff + 4)]) := by
  intro k
  induction k with
  | zero =>
      intro fuel start hk _ hbit0 hbit16
      match fuel, hk with
      | fuel + 1, _ =>
        rw [Nat.add_zero] at hbit0 hbit16
        simp [waitAux, hbit0, hbit16]
  | succ k ih =>
      intro fuel start hk hpre hbit0 hbit16
      match fuel, hk with
      | fuel + 1, hk =>
        have h0 := hpre 0 (Nat.succ_pos k)
        rw [Nat.add_zero] at h0
        rw [stopBit, Bool.or_eq_false_iff] at h0
        have hrec := ih fuel (start + 1) (Nat.lt_of_succ_lt_succ hk)
          (fun j hj => by
            have h := hpre (j + 1) (Nat.succ_lt_succ hj)
            rwa [show start + (j + 1) = start + 1 + j by omega] at h)
          (by rwa [show start + 1 + k = start + (k + 1) by omega])
          (by rwa [show start + 1 + k = start + (k + 1) by omega])
        simp [waitAux, h0.1, h0.2, hrec, List.replicate_succ]

/-- If none of the first `fuel` polled status words has a stopping bit,
the polling loop times out after exactly `fuel` status reads. -/
theorem waitAux_timeout (statusOff : Nat) (statusSeq : Nat → Nat)
    (errCode : Nat) :
    ∀ fuel start,
      (∀ j, j < fuel → stopBit (statusSeq (start + j)) = false) →
      waitAux statusOff statusSeq errCode fuel start
        = (Except.error Lzma2Error.TimeoutError,
           List.replicate fuel (Op.readReg statusOff)) := by
  intro fuel
  induction fuel with
  | zero => intro start _; simp [waitAux]
  | succ fuel ih =>
      intro start hpre
      have h0 := hpre 0 (Nat.succ_pos fuel)
      rw [Nat.add_zero] at h0
      rw [stopBit, Bool.or_eq_false_iff] at h0
      have hrec := ih (start + 1) (fun j hj => by
        have h := hpre (j + 1) (Nat.succ_lt_succ hj)
        rwa [show start + (j + 1) = start + 1 + j by omega] at h)
      simp [waitAux, h0.1, h0.2, hrec, List.replicate_succ]

/-- The polling loop never performs more status reads than it has
fuel. -/
theorem waitAux_statusReadCount_le (statusOff : Nat) (statusSeq : Nat → Nat)
    (errCode : Nat) :
    ∀ fuel start,
      statusReadCount statusOff
        (waitAux statusOff statusSeq errCode fuel start).2 ≤ fuel := by
  intro fuel
  induction fuel with
  | zero => intro start; simp [waitAux, statusReadCount]
  | succ fuel ih =>
      intro start
      by_cases h0 : (statusSeq start).testBit 0 = true
      · simp [waitAux, h0, statusReadCount]
      · by_cases h16 : (statusSeq start).testBit 16 = true
        · simp [waitAux, h0, h16, statusReadCount]
        · have hrec := ih (start + 1)
          simp only [waitAux, h0, h16, if_false, Bool.false_eq_true, if_neg,
            Bool.not_eq_true] at hrec ⊢
          simp only [statusReadCount, List.filter_cons] at hrec ⊢
          simp only [beq_self_eq_true, if_pos, List.length_cons]
          omega

/-- Auxiliary strong induction for `chunksOf_length`, bounding the list
length by a fuel parameter. -/
theorem chunksOf_length_aux (k : Nat) :
    ∀ n (l : List Nat), l.length ≤ n →
      (chunksOf k l).length = (l.length + k) / (k + 1) := by
  intro n
  induction n with
  | zero =>
      intro l hl
      have hnil : l = [] := List.eq_nil_of_length_eq_zero (Nat.le_zero.mp hl)
      subst hnil
      simp [chunksOf, Nat.div_eq_of_lt (Nat.lt_succ_self k)]
  | succ n ih =>
      intro l hl
      match l with
      | [] => simp [chunksOf, Nat.div_eq_of_lt (Nat.lt_succ_self k)]
      | x :: xs =>
          rw [chunksOf, List.length_cons, List.length_cons]
          have hdrop : ((x :: xs).drop (k + 1)).length ≤ n := by
            rw [List.length_drop, List.length_cons]
            rw [List.length_cons] at hl
            omega
          rw [ih _ hdrop, List.length_drop, List.length_cons]
          have hre : xs.length + 1 + k = xs.length + (k + 1) := by omega
          rw [hre, Nat.add_div_right _ (Nat.succ_pos k)]
          have hgoal : (xs.length + 1 - (k + 1) + k) / (k + 1)
              = xs.length / (k + 1) := by
            rcases le_or_lt (k + 1) (xs.length + 1) with hle | hlt
            · have h1 : xs.length + 1 - (k + 1) + k = xs.length := by omega
              rw [h1]
            · have h1 : xs.length + 1 - (k + 1) = 0 := by omega
              rw [h1, Nat.zero_add, Nat.div_eq_of_lt (Nat.lt_succ_self k),
                Nat.div_eq_of_lt (by omega)]
          rw [hgoal]

/-- `chunksOf (k) l` has exactly `⌈l.length / (k + 1)⌉ =
(l.length + k) / (k + 1)` chunks. -/
theorem chunksOf_length (k : Nat) (l : List Nat) :
    (chunksOf k l).length = (l.length + k) / (k + 1) :=
  chunksOf_length_aux k l.length l (Nat.le_refl _)

/-- The `i`-th chunk of `chunksOf k l` is
`(l.drop ((k + 1) * i)).take (k + 1)`. -/
theorem chunksOf_getElem (k : Nat) :
    ∀ i (l : List Nat), i < (chunksOf k l).length →
      (chunksOf k l)[i]? = some ((l.drop ((k + 1) * i)).take (k + 1)) := by
  intro i
  induction i with
  | zero =>
      intro l hi
      match l with
      | [] => simp [chunksOf] at hi
      | x :: xs => simp [chunksOf]
  | succ i ih =>
      intro l hi
      match l with
      | [] => simp [chunksOf] at hi
      | x :: xs =>
          rw [chunksOf] at hi ⊢
          rw [List.length_cons] at hi
          rw [List.getElem?_cons_succ, ih _ (Nat.lt_of_succ_lt_succ hi),
            List.drop_drop]
          have harith : k + 1 + (k + 1) * i = (k + 1) * (i + 1) := by
            rw [Nat.mul_succ]
            exact Nat.add_comm _ _
          rw [harith]

/-- First component of `read_output_data`, spelled out. -/
theorem read_output_data_fst (b : Nat) (mem : Nat → Nat) :
    (read_output_data b mem).1 = (List.range (32 * 1024 / 256)).flatMap
      (fun i => (List.range 256).map (fun j => mem (b + i * 256 + j))) := rfl

/-- The read-back output buffer always has exactly 32768 bytes. -/
theorem read_output_data_length (b : Nat) (mem : Nat → Nat) :
    (read_output_data b mem).1.length = 32768 := by
  rw [read_output_data_fst, List.length_flatMap]
  rw [show (List.length ∘ fun i =>
        List.map (fun j => mem (b + i * 256 + j)) (List.range 256))
      = fun _ : Nat => 256 from funext (fun i => by simp)]
  rw [List.map_const', List.sum_replicate, List.length_range, smul_eq_mul]

/-- C5: `is_recoverable` is a pure, total function of the error kind
alone: true for TransferError and TimeoutError, false for the other five
kinds, whatever context string the variant carries. -/
theorem is_recoverable_pure_of_kind (s t u v : String) :
    is_recoverable (Lzma2Error.TransferError s) = true
    ∧ is_recoverable Lzma2Error.TimeoutError = true
    ∧ is_recoverable (Lzma2Error.DeviceInitError t) = false
    ∧ is_recoverable (Lzma2Error.ProcessingError u) = false
    ∧ is_recoverable Lzma2Error.DeviceAccessError = false
    ∧ is_recoverable Lzma2Error.CrcError = false
    ∧ is_recoverable (Lzma2Error.InputValidationError v) = false :=
  ⟨rfl, rfl, rfl, rfl, rfl, rfl, rfl⟩

/-- C7: CRC32 round-trip: for every polynomial, initial value and byte
sequence, `verify data (calculate data)` is true and
`verify data (calculate data ^^^ 1)` is false. -/
theorem crc32_roundtrip (c : Crc32) (data : List Nat) :
    c.verify data (c.calculate data) = true
    ∧ c.verify data (c.calculate data ^^^ 1) = false := by
  constructor
  · simp [Crc32.verify]
  · simp only [Crc32.verify, beq_eq_false_iff_ne, ne_eq]
    intro h
    exact xor_one_ne (c.calculate data) h.symm

/-- C6: after `calculate_compression_ratio`, `compression_ratio` equals
`compressed_bytes / total_bytes_processed` when `total_bytes_processed`
is positive and `1.0` otherwise; after `calculate_hit_ratio`, `hit_ratio`
equals `hits / (hits + misses)` when the total is positive and `0.0`
otherwise. -/
theorem metrics_ratio_derivation (m : PerformanceMetrics) (c : CacheMetrics) :
    (calculate_compression_ratio m).compression_ratio
      = (if m.total_bytes_processed > 0
          then (m.compressed_bytes : ℚ) / (m.total_bytes_processed : ℚ)
          else 1)
    ∧ (calculate_hit_ratio c).hit_ratio
      = (if c.hits + c.misses > 0
          then (c.hits : ℚ) / ((c.hits + c.misses : Nat) : ℚ)
          else 0) :=
  ⟨rfl, rfl⟩

/-- C1: `wait_for_completion` performs at most 1000 status reads; if the
k-th read (0-based `k`, so `k + 1 ≤ 1000` reads) is the first with a
stopping bit and has bit 0 set, it succeeds after exactly `k + 1` status
reads; if the first stopping read has bit 16 set with bit 0 clear, it
reads the error-code register at `statusOff + 4` and fails with a
ProcessingError carrying that code; if none of the 1000 reads has bit 0
or bit 16 set, it fails with TimeoutError. -/
theorem wait_for_completion_poll_protocol (statusOff : Nat)
    (statusSeq : Nat → Nat) (errCode : Nat) :
    statusReadCount statusOff
        (wait_for_completion statusOff statusSeq errCode).2 ≤ 1000
    ∧ (∀ k, k < 1000 → (∀ j, j < k → stopBit (statusSeq j) = false) →
        (statusSeq k).testBit 0 = true →
        wait_for_completion statusOff statusSeq errCode
          = (Except.ok (), List.replicate (k + 1) (Op.readReg statusOff)))
    ∧ (∀ k, k < 1000 → (∀ j, j < k → stopBit (statusSeq j) = false) →
        (statusSeq k).testBit 0 = false → (statusSeq k).testBit 16 = true →
        wait_for_completion statusOff statusSeq errCode
          = (Except.error (Lzma2Error.ProcessingError
              ("Processing error: Error code " ++ toString errCode)),
             List.replicate (k + 1) (Op.readReg statusOff)
               ++ [Op.readReg (statusOff + 4)]))
    ∧ ((∀ j, j < 1000 → stopBit (statusSeq j) = false) →
        wait_for_completion statusOff statusSeq errCode
          = (Except.error Lzma2Error.TimeoutError,
             List.replicate 1000 (Op.readReg statusOff))) := by
  refine ⟨?_, ?_, ?_, ?_⟩
  · exact waitAux_statusReadCount_le statusOff statusSeq errCode MAX_RETRIES 0
  · intro k hk hpre hbit
    exact waitAux_success statusOff statusSeq errCode k MAX_RETRIES 0 hk
      (fun j hj => by rw [Nat.zero_add]; exact hpre j hj)
      (by rwa [Nat.zero_add])
  · intro k hk hpre hbit0 hbit16
    exact waitAux_error statusOff statusSeq errCode k MAX_RETRIES 0 hk
      (fun j hj => by rw [Nat.zero_add]; exact hpre j hj)
      (by rwa [Nat.zero_add]) (by rwa [Nat.zero_add])
  · intro hpre
    exact waitAux_timeout statusOff statusSeq errCode MAX_RETRIES 0
      (fun j hj => by rw [Nat.zero_add]; exact hpre j hj)

/-- Witness for C1: a port whose first status read has bit 0 set makes
`wait_for_completion` succeed after a single status read. -/
theorem wait_for_completion_poll_protocol_witness :
    wait_for_completion 4 (fun _ => 1) 0
      = (Except.ok (), List.replicate 1 (Op.readReg 4)) :=
  (wait_for_completion_poll_protocol 4 (fun _ => 1) 0).2.1 0 (by decide)
    (fun j hj => absurd hj (Nat.not_lt_zero j)) (by decide)

/-- C9: if the first stopping status read has both bit 0 (completion)
and bit 16 (error) set, `wait_for_completion` returns success and the
error-code register at `statusOff + 4` is never read: the completion
check takes precedence over the error check on every poll. -/
theorem wait_completion_precedence (statusOff : Nat) (statusSeq : Nat → Nat)
    (errCode : Nat) (k : Nat) (hk : k < 1000)
    (hpre : ∀ j, j < k → stopBit (statusSeq j) = false)
    (h0 : (statusSeq k).testBit 0 = true)
    (h16 : (statusSeq k).testBit 16 = true) :
    (wait_for_completion statusOff statusSeq errCode).1 = Except.ok ()
    ∧ Op.readReg (statusOff + 4)
        ∉ (wait_for_completion statusOff statusSeq errCode).2 := by
  have h := waitAux_success statusOff statusSeq errCode k MAX_RETRIES 0 hk
    (fun j hj => by rw [Nat.zero_add]; exact hpre j hj)
    (by rwa [Nat.zero_add])
  rw [wait_for_completion, h]
  refine ⟨rfl, ?_⟩
  intro hmem
  have heq := List.eq_of_mem_replicate hmem
  injection heq with h4
  omega

/-- Witness for C9: a port whose first status read has both bit 0 and
bit 16 set (value 65537) yields success without touching the error-code
register. -/
theorem wait_completion_precedence_witness :
    (wait_for_completion 4 (fun _ => 65537) 7).1 = Except.ok ()
    ∧ Op.readReg 8 ∉ (wait_for_completion 4 (fun _ => 65537) 7).2 :=
  wait_completion_precedence 4 (fun _ => 65537) 7 0 (by decide)
    (fun j hj => absurd hj (Nat.not_lt_zero j)) (by decide) (by decide)

/-- C2: for every input whose length is not 32768, `compress` fails with
InputValidationError with an empty port trace (no register read or
write); for the empty input, `decompress` fails with
InputValidationError with an empty port trace. -/
theorem validation_before_port_access (regs : RegisterMap)
    (strategy : TransferStrategy) (statusSeq : Nat → Nat) (errCode : Nat)
    (mem : Nat → Nat) :
    (∀ input : List Nat, input.length ≠ 32768 →
      compress regs strategy statusSeq errCode mem input
        = (Except.error (Lzma2Error.InputValidationError
            ("Input size must be 32KB. Current size: "
              ++ toString input.length)), []))
    ∧ decompress regs strategy statusSeq errCode mem []
        = (Except.error
            (Lzma2Error.InputValidationError "Compressed data is empty"),
           []) := by
  constructor
  · intro input h
    have h2 : input.length ≠ 32 * 1024 := by omega
    simp only [compress, if_pos h2]
  · rfl

/-- Witness for C2: a one-byte input is rejected by `compress` with no
port access. -/
theorem validation_before_port_access_witness :
    compress defaultRegisters TransferStrategy.Mmio (fun _ => 0) 0
        (fun _ => 0) [7]
      = (Except.error (Lzma2Error.InputValidationError
          ("Input size must be 32KB. Current size: " ++ toString (1 : Nat))),
         []) :=
  (validation_before_port_access defaultRegisters TransferStrategy.Mmio
    (fun _ => 0) 0 (fun _ => 0)).1 [7] (by decide)

/-- C8: under the Dma or Streaming strategy, both transfer routines fail
immediately with a TransferError reading "Unsupported transfer strategy"
and perform no chunk write. -/
theorem unsupported_strategy_transfer (base : Nat) (input : List Nat)
    (strategy : TransferStrategy)
    (h : strategy = TransferStrategy.Dma
        ∨ strategy = TransferStrategy.Streaming) :
    transfer_input_data base strategy input
      = (Except.error
          (Lzma2Error.TransferError "Unsupported transfer strategy"), [])
    ∧ transfer_compressed_data base strategy input
      = (Except.error
          (Lzma2Error.TransferError "Unsupported transfer strategy"), []) := by
  rcases h with h | h <;> subst h <;> exact ⟨rfl, rfl⟩

/-- Witness for C8: the Dma strategy rejects a concrete transfer with no
chunk write. -/
theorem unsupported_strategy_transfer_witness :
    transfer_input_data 8 TransferStrategy.Dma [1, 2, 3]
      = (Except.error
          (Lzma2Error.TransferError "Unsupported transfer strategy"), [])
    ∧ transfer_compressed_data 8 TransferStrategy.Dma [1, 2, 3]
      = (Except.error
          (Lzma2Error.TransferError "Unsupported transfer strategy"), []) :=
  unsupported_strategy_transfer 8 [1, 2, 3] TransferStrategy.Dma (Or.inl rfl)

/-- C4: for every non-empty input of length n transferred by
`transfer_compressed_data` under the Mmio strategy, the trace consists of
exactly `⌈n / 32⌉` chunk writes; the i-th carries bytes `32 i ..
min (32 (i + 1)) n` of the input zero-padded to 32 bytes, lands at
offset `input_data_base + i * 32`, and no write offset exceeds
`input_data_base + ⌈n / 32⌉ * 32`. -/
theorem decompress_input_chunking (base : Nat) (input : List Nat)
    (hne : input ≠ []) :
    (transfer_compressed_data base TransferStrategy.Mmio input).1
        = Except.ok ()
    ∧ (transfer_compressed_data base TransferStrategy.Mmio input).2.length
        = (input.length + 31) / 32
    ∧ ∀ i, i < (input.length + 31) / 32 →
        (transfer_compressed_data base TransferStrategy.Mmio input).2[i]?
          = some (Op.writeChunk (base + i * 32)
              (padChunk32 ((input.drop (32 * i)).take 32)))
        ∧ (padChunk32 ((input.drop (32 * i)).take 32)).length = 32
        ∧ base + i * 32 ≤ base + ((input.length + 31) / 32) * 32 := by
  have hlen : (transfer_compressed_data base TransferStrategy.Mmio input).2.length
      = (input.length + 31) / 32 := by
    show ((chunksOf 31 input).enum.map _).length = _
    rw [List.length_map, List.enum_length, chunksOf_length]
  refine ⟨rfl, hlen, ?_⟩
  intro i hi
  have hic : i < (chunksOf 31 input).length := by
    rw [chunksOf_length]
    exact hi
  have hchunk := chunksOf_getElem 31 i input hic
  refine ⟨?_, ?_, ?_⟩
  · show ((chunksOf 31 input).enum.map _)[i]? = _
    rw [List.getElem?_map, List.getElem?_enum, hchunk]
    rfl
  · rw [padChunk32, List.length_append, List.length_replicate,
      List.length_take]
    omega
  · have : i ≤ (input.length + 31) / 32 := Nat.le_of_lt hi
    exact Nat.add_le_add_left (Nat.mul_le_mul_right 32 this) base

/-- Witness for C4: for the two-byte input `[1, 2]` the single chunk
write lands at the base offset and carries the input zero-padded to 32
bytes. -/
theorem decompress_input_chunking_witness :
    (transfer_compressed_data 8 TransferStrategy.Mmio [1, 2]).2[0]?
      = some (Op.writeChunk (8 + 0 * 32)
          (padChunk32 ((([1, 2] : List Nat).drop (32 * 0)).take 32))) :=
  ((decompress_input_chunking 8 [1, 2] (by simp)).2.2 0 (by decide)).1

/-- C10: the metrics record returned by `get_performance_metrics` always
has `literal_count = 0` and `match_hits = 0`, and its trace is exactly
the five counter reads at `performance_counters + 0, +4, +8, +12,
+16`. -/
theorem performance_metrics_frame (perfBase : Nat) (regVal : Nat → Nat) :
    (get_performance_metrics perfBase regVal).1.literal_count = 0
    ∧ (get_performance_metrics perfBase regVal).1.match_hits = 0
    ∧ (get_performance_metrics perfBase regVal).2
        = [Op.readReg perfBase, Op.readReg (perfBase + 4),
           Op.readReg (perfBase + 8), Op.readReg (perfBase + 12),
           Op.readReg (perfBase + 16)] :=
  ⟨rfl, rfl, rfl⟩

/-- C3: whenever `compress` or `decompress` succeeds, the returned
buffer has exactly 32768 bytes, assembled from exactly 128 chunk reads
of 256 bytes each at offsets `output_data + i * 256` for
`i = 0 .. 127`, regardless of which operation produced it. -/
theorem output_readback_fixed (regs : RegisterMap)
    (strategy : TransferStrategy) (statusSeq : Nat → Nat) (errCode : Nat)
    (mem : Nat → Nat) (input out : List Nat) (ops : List Op)
    (h : compress regs strategy statusSeq errCode mem input
          = (Except.ok out, ops)
       ∨ decompress regs strategy statusSeq errCode mem input
          = (Except.ok out, ops)) :
    out.length = 32768
    ∧ out = (List.range 128).flatMap
        (fun i => (List.range 256).map
          (fun j => mem (regs.output_data + i * 256 + j)))
    ∧ ∃ pre, ops = pre ++ (List.range 128).map
        (fun i => Op.readChunk (regs.output_data + i * 256) 256) := by
  have key : out = (read_output_data regs.output_data mem).1
      ∧ ∃ pre, ops = pre ++ (read_output_data regs.output_data mem).2 := by
    rcases h with h | h
    · simp only [compress] at h
      split at h
      · simp at h
      · split at h
        · simp at h
        · split at h
          · simp at h
          · rw [Prod.mk.injEq] at h
            obtain ⟨h1, h2⟩ := h
            rw [Except.ok.injEq] at h1
            exact ⟨h1.symm, _, h2.symm⟩
    · simp only [decompress] at h
      split at h
      · simp at h
      · split at h
        · simp at h
        · split at h
          · simp at h
          · rw [Prod.mk.injEq] at h
            obtain ⟨h1, h2⟩ := h
            rw [Except.ok.injEq] at h1
            exact ⟨h1.symm, _, h2.symm⟩
  refine ⟨?_, ?_, ?_⟩
  · rw [key.1, read_output_data_length]
  · rw [key.1]; rfl
  · exact key.2

/-- Witness for C3: with a port completing on the first poll and an
all-zero output memory, a 32 KiB `compress` succeeds and the returned
buffer has exactly 32768 bytes. -/
theorem output_readback_fixed_witness :
    ((read_output_data defaultRegisters.output_data (fun _ => 0)).1).length
      = 32768 :=
  (output_readback_fixed defaultRegisters TransferStrategy.Mmio
    (fun _ => 1) 0 (fun _ => 0) (List.replicate (32 * 1024) 0) _ _
    (Or.inl (by
      simp only [compress]
      rw [if_neg (by rw [List.length_replicate]; exact fun hc => hc rfl)]
      rfl))).1

end LzmaFpga
